import Mathlib

/-!
# Verification of `clone-contract` (src/bin/clone.js)

A shallow embedding of the decision logic of `src/bin/clone.js`:

* the reference resolver `tryParseExplorerUrl` and the argument handling of
  `parseArgs`,
* the fetch normalization `fetchSource`,
* the file materializer `checkOutputDirectory` / `writeSourceWithMerge` and
  the write phase of `main`.

External platform primitives are modelled as explicit parameters:

* WHATWG URL parsing (`new URL(...)`) is a parameter
  `parseUrl : String → Option UrlObj`; `none` models the constructor throwing
  `ERR_INVALID_URL`.
* the chain registry `chains.json` is a parameter `reg : String → Option Nat`
  (hostname to numeric chain id; `none` models a missing key).
* `JSON.parse` on the remote source payload is a parameter
  `parse : String → Option SolcJson`; `none` models the whole `try` block of
  `fetchSource` throwing (either `JSON.parse` itself or the field access on a
  non-object value).
* the filesystem is an explicit `Fs` state: an association list of full file
  paths to contents, plus a directory-listing view used only by the one
  `readdir` call (`checkOutputDirectory`), which in the program runs before
  any write.

JavaScript `undefined`/missing values are modelled as `Option`, and JS
truthiness of string-valued expressions as `jsTruthyS` (both `undefined` and
`""` are falsy).
-/

set_option autoImplicit false

namespace CloneContract

/-- JS truthiness of a possibly-undefined string value:
`undefined`/`null` and the empty string are falsy. -/
def jsTruthyS : Option String → Bool
  | none => false
  | some s => s ≠ ""

/-- JS template-literal interpolation of a possibly-undefined string:
`undefined` prints as the string "undefined". -/
def jsStr : Option String → String
  | none => "undefined"
  | some s => s

/-- A chain identifier as it flows through the program: either a verbatim
path-segment string (the aggregator branch) or a numeric id from the
registry (the generic-explorer branch). -/
inductive ChainId where
  | name (s : String)
  | id (n : Nat)
  deriving DecidableEq, Repr

/-- JS truthiness of a chain identifier value (a string or a number):
`""` and `0` are falsy. -/
def chainTruthy : ChainId → Bool
  | .name s => s ≠ ""
  | .id n => n ≠ 0

/-- Result of `new URL(token)`: the fields the program reads. -/
structure UrlObj where
  hostname : String
  pathname : String
  deriving DecidableEq, Repr

/-- `pathname.split("/")` on characters: split at every `/`, keeping empty
pieces, as the JS one-separator `split` does.  (Structurally recursive
stand-in for `String.splitOn`, whose well-founded recursion the kernel
cannot evaluate.) -/
def splitSlash : List Char → List Char → List String
  | [], acc => [String.mk acc.reverse]
  | c :: rest, acc =>
    if c = '/' then String.mk acc.reverse :: splitSlash rest []
    else splitSlash rest (c :: acc)

/-- `urlObj.pathname.split("/").filter(Boolean)` (clone.js line 15). -/
def pathSegs (u : UrlObj) : List String :=
  (splitSlash u.pathname.data []).filter (fun s => s ≠ "")

/-- The test `/^0x[a-fA-F0-9]{40}$/.test s` used at clone.js lines 27 and 68. -/
def isAddress (s : String) : Bool :=
  match s.data with
  | '0' :: 'x' :: rest => rest.length = 40 && rest.all fun c =>
      ('0' ≤ c && c ≤ '9') || ('a' ≤ c && c ≤ 'f') || ('A' ≤ c && c ≤ 'F')
  | _ => false

/-- `toLowerCase()` character by character.  (Structurally recursive
stand-in for `String.toLower`, whose well-founded recursion the kernel
cannot evaluate.) -/
def jsToLower (s : String) : String :=
  String.mk (s.data.map Char.toLower)

/-- `["address", "token", "contract"].includes(segment.toLowerCase())`
(clone.js lines 59-61). -/
def isMarker (seg : String) : Bool :=
  jsToLower seg = "address" || jsToLower seg = "token" ||
    jsToLower seg = "contract"

/-- The combined condition `addressIndex !== -1 && pathSegments[addressIndex + 1]`
of clone.js line 63: `some nxt` when a marker segment exists and is followed
by a (truthy) segment, which is then taken as the address; `none` otherwise,
in which case line 67's fallback scan runs. -/
def markerNext (segs : List String) : Option String :=
  match segs.findIdx? isMarker with
  | some i =>
    match segs.get? (i + 1) with
    | some nxt => if nxt ≠ "" then some nxt else none
    | none => none
  | none => none

/-- What `tryParseExplorerUrl` returns on success (clone.js lines 39-42 and
79-82): the contract address and an optional chain identifier.  On the
bare-address path (URL parse failure, lines 84-88) only `contractAddress`
is set. -/
structure Resolved where
  contractAddress : String
  chainId : Option ChainId
  deriving DecidableEq, Repr

/-- Error text of clone.js line 89 (every error thrown inside the `try`
block other than `ERR_INVALID_URL` is re-wrapped with this prefix). -/
def wrapErr (msg : String) : String :=
  "Failed to parse explorer URL: " ++ msg

def aggregatorHost : String := "vscode.blockscan.com"

def aggErrMsg : String :=
  "Invalid Blockscan URL format. Expected: /[chain-name|chain-id]/contractAddress"

/-- The aggregator branch of `tryParseExplorerUrl` (clone.js lines 21-43).
When there are at least two path segments, `chainId` is the first segment
and `contractAddress` is the second provided it matches the address
pattern; the branch fails (line 33, `!chainId || !contractAddress`) when
either is still null/falsy. -/
def aggBranch (segs : List String) : Except String Resolved :=
  let chainId : Option String :=
    if 2 ≤ segs.length then segs.get? 0 else none
  let contractAddress : Option String :=
    if 2 ≤ segs.length && isAddress (segs.getD 1 "") then segs.get? 1 else none
  if jsTruthyS chainId && jsTruthyS contractAddress then
    .ok ⟨contractAddress.getD "", some (.name (chainId.getD ""))⟩
  else
    .error (wrapErr aggErrMsg)

/-- The generic-explorer branch of `tryParseExplorerUrl` (clone.js lines
45-82): registry lookup with JS truthiness check (`!chainId`, line 49),
marker-based extraction with fallback scan (lines 59-70), and the final
`!contractAddress` check (line 72). -/
def genericBranch (reg : String → Option Nat) (domain : String)
    (segs : List String) : Except String Resolved :=
  let chainId := reg domain
  if chainId.getD 0 = 0 then
    .error (wrapErr ("Unsupported explorer domain: " ++ domain))
  else
    let contractAddress : Option String :=
      match markerNext segs with
      | some nxt => some nxt
      | none => segs.find? isAddress
    if jsTruthyS contractAddress then
      .ok ⟨contractAddress.getD "", some (.id (chainId.getD 0))⟩
    else
      .error (wrapErr "Contract address not found in URL")

/-- `tryParseExplorerUrl` (clone.js lines 11-91).  `parseUrl` models
`new URL`; a `none` result models `ERR_INVALID_URL`, in which case the
raw token is returned as the contract address (lines 84-88). -/
def tryParseExplorerUrl (reg : String → Option Nat)
    (parseUrl : String → Option UrlObj) (url : String) :
    Except String Resolved :=
  match parseUrl url with
  | none => .ok ⟨url, none⟩
  | some u =>
    let segs := pathSegs u
    if u.hostname = aggregatorHost then aggBranch segs
    else genericBranch reg u.hostname segs

/-- `args.indexOf(x)`: index of the first occurrence, or -1. -/
def jsIndexOf (xs : List String) (x : String) : Int :=
  match xs.findIdx? (fun a => a = x) with
  | some i => (i : Int)
  | none => -1

/-- What `parseArgs` returns (clone.js line 126). -/
structure ParsedArgs where
  chain : ChainId
  contract : Option String
  outputRoot : Option String
  merge : Bool
  deriving DecidableEq, Repr

/-- `tryParseExplorerUrl` lifted to a possibly-undefined token:
`new URL(undefined)` throws `ERR_INVALID_URL`, so the bare-address path
returns the (undefined) token unchanged. -/
def resolveToken (reg : String → Option Nat)
    (parseUrl : String → Option UrlObj) :
    Option String → Except String (Option String × Option ChainId)
  | none => .ok (none, none)
  | some t =>
    match tryParseExplorerUrl reg parseUrl t with
    | .ok r => .ok (some r.contractAddress, r.chainId)
    | .error m => .error m

/-- `parseArgs` (clone.js lines 93-127): strip the first `-m`/`--merge`
occurrence, read `--chain <value>` and the positional arguments, resolve
the contract token, and compute the final chain as
`chain || parsed.chainId || "ethereum"` (line 124) with JS truthiness. -/
def parseArgs (reg : String → Option Nat)
    (parseUrl : String → Option UrlObj) (args0 : List String) :
    Except String ParsedArgs :=
  let mergeIndex : Int :=
    max (jsIndexOf args0 "-m") (jsIndexOf args0 "--merge")
  let merge : Bool := mergeIndex ≠ -1
  let args : List String :=
    if mergeIndex ≠ -1 then args0.eraseIdx mergeIndex.toNat else args0
  let updatedChainIndex : Int := jsIndexOf args "--chain"
  let st : Option String × Option String × Option String :=
    if updatedChainIndex = -1 then
      (none, args.get? 0, args.get? 1)
    else
      let i := updatedChainIndex.toNat
      let remainingArgs := args.take i ++ args.drop (i + 2)
      (args.get? (i + 1), remainingArgs.get? 0, remainingArgs.get? 1)
  match resolveToken reg parseUrl st.2.1 with
  | .error m => .error m
  | .ok (contract, parsedChainId) =>
    let chain : ChainId :=
      if jsTruthyS st.1 then .name (st.1.getD "")
      else
        match parsedChainId with
        | some c => if chainTruthy c then c else .name "ethereum"
        | none => .name "ethereum"
    .ok ⟨chain, contract, st.2.2, merge⟩

/-- The remote API response (clone.js lines 139-142): the fields `fetchSource`
reads from `await response.json()`.  `none` models an absent (`undefined`)
field. -/
structure ApiResponse where
  result : Option String
  contractName : Option String
  ext : Option String
  proxyAddress : Option String
  proxyResult : Option String
  proxyContractName : Option String
  proxyExt : Option String
  deriving DecidableEq, Repr

/-- What `JSON.parse(source)` followed by the field reads `result.sources`
and `result.settings?.remappings` (clone.js lines 147-151) produces when the
`try` block does not throw: the `sources` mapping (as a path/content
association list, `none` when the field is absent) and the optional
remappings sequence. -/
structure SolcJson where
  sources : Option (List (String × String))
  remappings : Option (List String)
  deriving DecidableEq, Repr

/-- What `fetchSource` returns (clone.js lines 148-151 and 154-161). -/
structure Bundle where
  contractName : Option String
  sources : Option (List (String × String))
  remappings : Option (List String)
  deriving DecidableEq, Repr

/-- `fetchSource` after the HTTP call (clone.js lines 139-162): select the
proxy fields when `api.proxyAddress` is truthy (lines 140-142), fail when
the selected source is falsy (line 144), then either return the parsed
`sources`/`remappings` (lines 146-152) or, when the parse throws, a single
synthetic entry named `{contractName}.{ext}` holding the raw payload
(lines 153-162).  `parse` models `JSON.parse` plus the field reads; `none`
models the `try` block throwing. -/
def fetchSource (parse : String → Option SolcJson) (api : ApiResponse) :
    Except String Bundle :=
  let sel : Option String × Option String × Option String :=
    if jsTruthyS api.proxyAddress then
      (api.proxyResult, api.proxyContractName, api.proxyExt)
    else
      (api.result, api.contractName, api.ext)
  if jsTruthyS sel.1 then
    let s := sel.1.getD ""
    match parse s with
    | some r => .ok ⟨sel.2.1, r.sources, r.remappings⟩
    | none => .ok ⟨sel.2.1, some [(jsStr sel.2.1 ++ "." ++ jsStr sel.2.2, s)], none⟩
  else
    .error "No source found"

/-! ## The filesystem model and the materializer -/

/-- First-match association-list lookup (the filesystem views below are
association lists keyed by path). -/
def lk {α : Type} : List (String × α) → String → Option α
  | [], _ => none
  | (k, v) :: rest, key => if k = key then some v else lk rest key

/-- The filesystem state.  `files` maps a full file path to its content;
`writeFile(path, ..., flag: "wx")` appends to it iff the path is absent.
`listing` is the directory view read by the single `readdir` call of
`checkOutputDirectory` (`none` models `ENOENT`); in the program that call
runs before any write, so writes are not reflected into `listing`. -/
structure Fs where
  files : List (String × String)
  listing : List (String × List String)
  deriving DecidableEq, Repr

def dirNotEmptyMsg : String :=
  "Directory is not empty. Please use an empty directory or use --merge flag."

/-- `checkOutputDirectory` (clone.js lines 169-183): `readdir` the
destination; a non-empty listing aborts the run (`process.exit(1)`,
modelled as an error), `ENOENT` is swallowed. -/
def checkOutputDirectory (outputRoot : String) (fs : Fs) :
    Except String Fs :=
  match lk fs.listing outputRoot with
  | none => .ok fs
  | some entries =>
    if 0 < entries.length then .error dirNotEmptyMsg else .ok fs

/-- Scan a reversed character list for the regex `\.[^/.]+$` of clone.js
lines 192-193: walking from the end of the path, collect characters until
the last `.`; the extension match exists iff a `.` is reached before any
`/` with at least one character collected.  Returns the reversed base
characters and the extension characters (dot included, in order). -/
def findExtRev : List Char → List Char → Option (List Char × List Char)
  | [], _ => none
  | c :: rest, acc =>
    if c = '.' then
      if acc.isEmpty then none else some (rest, '.' :: acc)
    else if c = '/' then none
    else findExtRev rest (c :: acc)

/-- `generateFileName` (clone.js lines 189-195): counter 0 is the path
itself; otherwise insert `.conflict{counter}` between the base name and the
extension (the regex `\.[^/.]+$`; no match means the whole path is the base
and the extension is empty). -/
def generateFileName (fullPath : String) (counter : Nat) : String :=
  if counter = 0 then fullPath
  else
    match findExtRev fullPath.data.reverse [] with
    | some (revBase, ext) =>
      String.mk revBase.reverse ++ ".conflict" ++ toString counter ++ String.mk ext
    | none => fullPath ++ ".conflict" ++ toString counter

/-- `tryWriteFile` (clone.js lines 197-226), with the recursion made
structural on `fuel = 1001 - counter`: the code starts at counter 0 and
fails once `counter > 1000`, i.e. when the fuel runs out.  At each counter
an exclusive (`wx`) write of `generateFileName fullPath counter` is
attempted; on `EEXIST` at counter 0 only, identical existing content is a
skip (lines 216-221); otherwise the counter is incremented. -/
def tryWriteFuel (fs : Fs) (fullPath sourceCode : String) :
    Nat → Nat → Except String Fs
  | _, 0 => .error "Too many conflicts"
  | counter, fuel + 1 =>
    let targetPath := generateFileName fullPath counter
    match lk fs.files targetPath with
    | none => .ok ⟨fs.files ++ [(targetPath, sourceCode)], fs.listing⟩
    | some existingContent =>
      if counter = 0 && existingContent = sourceCode then .ok fs
      else tryWriteFuel fs fullPath sourceCode (counter + 1) fuel

/-- `path.join(outputRoot, filePath)` for the well-formed relative paths
the program passes it (no `.`/`..`/trailing-slash normalization needed). -/
def joinPath (outputRoot filePath : String) : String :=
  outputRoot ++ "/" ++ filePath

/-- `writeSourceWithMerge` (clone.js lines 185-229): resolve the full path
and run `tryWriteFile` from counter 0.  (`ensureDir` only creates parent
directories, which the `files` view does not track.) -/
def writeSourceWithMerge (fs : Fs) (filePath sourceCode outputRoot : String) :
    Except String Fs :=
  tryWriteFuel fs (joinPath outputRoot filePath) sourceCode 0 1001

/-- The `Promise.all` over `Object.entries(sources)` of clone.js lines
294-298, sequentialized.  The per-file operations of one bundle touch
pairwise disjoint paths in every run considered below, so the sequential
order is a faithful model of the concurrent one. -/
def writeAll (outputRoot : String) :
    List (String × String) → Fs → Except String Fs
  | [], fs => .ok fs
  | (key, content) :: rest, fs =>
    match writeSourceWithMerge fs key content outputRoot with
    | .ok fs' => writeAll outputRoot rest fs'
    | .error m => .error m

/-- The write phase of `main` (clone.js lines 290-307): the Strict
pre-check when `merge` is off, then all source files, then — whenever the
`remappings` value is truthy, which for an array means *present*, empty or
not — a `remappings.txt` file holding `remappings.join("\n")`. -/
def materialize (merge : Bool) (outputRoot : String)
    (sources : List (String × String)) (remappings : Option (List String))
    (fs0 : Fs) : Except String Fs :=
  match (if merge then .ok fs0 else checkOutputDirectory outputRoot fs0 :
      Except String Fs) with
  | .error m => .error m
  | .ok fs1 =>
    match writeAll outputRoot sources fs1 with
    | .error m => .error m
    | .ok fs2 =>
      match remappings with
      | some l =>
        writeSourceWithMerge fs2 "remappings.txt" (String.intercalate "\n" l)
          outputRoot
      | none => .ok fs2

/-! ## Helper lemmas about the filesystem model -/

theorem lk_append_some {α : Type} {l1 : List (String × α)}
    (l2 : List (String × α)) {key : String} {v : α}
    (h : lk l1 key = some v) : lk (l1 ++ l2) key = some v := by
  induction l1 with
  | nil => simp [lk] at h
  | cons p rest ih =>
    obtain ⟨k, w⟩ := p
    by_cases hk : k = key
    · simpa [lk, hk] using by simpa [lk, hk] using h
    · simp only [lk, if_neg hk] at h
      simpa [lk, hk] using ih h

theorem lk_append_none {α : Type} {l1 : List (String × α)}
    (l2 : List (String × α)) {key : String}
    (h : lk l1 key = none) : lk (l1 ++ l2) key = lk l2 key := by
  induction l1 with
  | nil => simp [lk]
  | cons p rest ih =>
    obtain ⟨k, w⟩ := p
    by_cases hk : k = key
    · simp [lk, hk] at h
    · simp only [lk, if_neg hk] at h
      simpa [lk, hk] using ih h

theorem lk_singleton {α : Type} (k key : String) (v : α) :
    lk [(k, v)] key = if k = key then some v else none := rfl

theorem joinPath_inj {root a b : String}
    (h : joinPath root a = joinPath root b) : a = b := by
  have h1 := congrArg String.data h
  simp only [joinPath, String.data_append, List.append_assoc] at h1
  exact String.ext (List.append_cancel_left (List.append_cancel_left h1))

theorem tryWriteFuel_succ (fs : Fs) (t c : String) (counter fuel : Nat) :
    tryWriteFuel fs t c counter (fuel + 1) =
      (match lk fs.files (generateFileName t counter) with
       | none =>
         .ok ⟨fs.files ++ [(generateFileName t counter, c)], fs.listing⟩
       | some e =>
         if counter = 0 && e = c then .ok fs
         else tryWriteFuel fs t c (counter + 1) fuel) := rfl

theorem generateFileName_zero (t : String) : generateFileName t 0 = t := rfl

/-- Exclusive write into a fresh path: one attempt, the file is appended. -/
theorem tw_fresh {fs : Fs} {t : String} (c : String)
    (h : lk fs.files t = none) :
    tryWriteFuel fs t c 0 1001 = .ok ⟨fs.files ++ [(t, c)], fs.listing⟩ := by
  rw [show (1001 : Nat) = 1000 + 1 from rfl, tryWriteFuel_succ]
  simp [generateFileName_zero, h]

/-- Exclusive write where the path already holds identical content: the
counter-0 comparison turns it into a skip. -/
theorem tw_skip {fs : Fs} {t c : String}
    (h : lk fs.files t = some c) :
    tryWriteFuel fs t c 0 1001 = .ok fs := by
  rw [show (1001 : Nat) = 1000 + 1 from rfl, tryWriteFuel_succ]
  simp [generateFileName_zero, h]

/-- Exclusive write where the path holds different content and the
`.conflict1` variant is free: two attempts, the variant is appended. -/
theorem tw_conflict {fs : Fs} {t c e : String}
    (h : lk fs.files t = some e) (hne : e ≠ c)
    (h1 : lk fs.files (generateFileName t 1) = none) :
    tryWriteFuel fs t c 0 1001 =
      .ok ⟨fs.files ++ [(generateFileName t 1, c)], fs.listing⟩ := by
  rw [show (1001 : Nat) = 1000 + 1 from rfl, tryWriteFuel_succ]
  simp only [generateFileName_zero, h]
  rw [if_neg (by simp [hne])]
  rw [show (1000 : Nat) = 999 + 1 from rfl, tryWriteFuel_succ]
  simp [h1]

theorem writeAll_cons (root key content : String)
    (rest : List (String × String)) (fs : Fs) :
    writeAll root ((key, content) :: rest) fs =
      (match writeSourceWithMerge fs key content root with
       | .ok fs' => writeAll root rest fs'
       | .error m => .error m) := rfl

/-- Keys absent from an association list look up to `none`. -/
theorem lk_eq_none {α : Type} {l : List (String × α)} {key : String}
    (h : ∀ kv ∈ l, kv.1 ≠ key) : lk l key = none := by
  induction l with
  | nil => rfl
  | cons p rest ih =>
    obtain ⟨k, v⟩ := p
    have hk : k ≠ key := h (k, v) (by simp)
    simp only [lk, if_neg hk]
    exact ih fun kv hkv => h kv (List.mem_cons_of_mem _ hkv)

/-- What one write of a fresh-or-identical file contributes to the
filesystem: a fresh target is appended, an identical one is skipped. -/
def preF (root : String) (fsfiles : List (String × String))
    (kc : String × String) : Option (String × String) :=
  if (lk fsfiles (joinPath root kc.1)).isNone then
    some (joinPath root kc.1, kc.2)
  else none

theorem preF_eq_of_lk {root : String} {f1 f2 : List (String × String)}
    {kc : String × String}
    (h : lk f1 (joinPath root kc.1) = lk f2 (joinPath root kc.1)) :
    preF root f1 kc = preF root f2 kc := by
  simp [preF, h]

/-- A `writeAll` run in which every file's target path is either absent or
already holds identical content: every write resolves at counter 0, fresh
targets are appended in order, identical ones are skipped. -/
theorem writeAll_pre (root : String) :
    ∀ (b : List (String × String)) (fs : Fs),
    (b.map Prod.fst).Nodup →
    (∀ kc ∈ b, lk fs.files (joinPath root kc.1) = none ∨
      lk fs.files (joinPath root kc.1) = some kc.2) →
    writeAll root b fs =
      .ok ⟨fs.files ++ b.filterMap (preF root fs.files), fs.listing⟩ := by
  intro b
  induction b with
  | nil =>
    intro fs _ _
    simp [writeAll]
  | cons hd rest ih =>
    intro fs hnd hpre
    obtain ⟨k, c⟩ := hd
    have hnd2 : (rest.map Prod.fst).Nodup := (List.nodup_cons.mp (by simpa using hnd)).2
    have hknotin : k ∉ rest.map Prod.fst := (List.nodup_cons.mp (by simpa using hnd)).1
    rw [writeAll_cons]
    show (match tryWriteFuel fs (joinPath root k) c 0 1001 with
      | .ok fs' => writeAll root rest fs'
      | .error m => .error m) = _
    rcases hpre (k, c) (by simp) with h | h
    · rw [tw_fresh c h]
      show writeAll root rest ⟨fs.files ++ [(joinPath root k, c)], fs.listing⟩ = _
      have hlk : ∀ kc ∈ rest,
          lk (fs.files ++ [(joinPath root k, c)]) (joinPath root kc.1) =
            lk fs.files (joinPath root kc.1) := by
        intro kc hkc
        cases hcase : lk fs.files (joinPath root kc.1) with
        | some v => exact lk_append_some _ hcase
        | none =>
          rw [lk_append_none _ hcase, lk_singleton, if_neg]
          intro hjp
          exact hknotin (joinPath_inj hjp ▸ List.mem_map_of_mem Prod.fst hkc)
      have hpre2 : ∀ kc ∈ rest,
          lk (fs.files ++ [(joinPath root k, c)]) (joinPath root kc.1) = none ∨
          lk (fs.files ++ [(joinPath root k, c)]) (joinPath root kc.1) =
            some kc.2 := by
        intro kc hkc
        rw [hlk kc hkc]
        exact hpre kc (List.mem_cons_of_mem _ hkc)
      rw [ih ⟨fs.files ++ [(joinPath root k, c)], fs.listing⟩ hnd2 hpre2]
      have hcongr : rest.filterMap (preF root (fs.files ++ [(joinPath root k, c)])) =
          rest.filterMap (preF root fs.files) :=
        List.filterMap_congr fun kc hkc => preF_eq_of_lk (hlk kc hkc)
      have hhd : preF root fs.files (k, c) = some (joinPath root k, c) := by
        simp [preF, h]
      simp [hcongr, List.filterMap_cons, hhd]
    · rw [tw_skip h]
      show writeAll root rest fs = _
      have hpre2 : ∀ kc ∈ rest,
          lk fs.files (joinPath root kc.1) = none ∨
          lk fs.files (joinPath root kc.1) = some kc.2 :=
        fun kc hkc => hpre kc (List.mem_cons_of_mem _ hkc)
      rw [ih fs hnd2 hpre2]
      have hhd : preF root fs.files (k, c) = none := by
        simp [preF, h]
      simp [List.filterMap_cons, hhd]

/-- A `writeAll` run into an empty filesystem writes exactly the bundle's
files at their joined paths, in order. -/
theorem writeAll_from_empty (root : String) (b : List (String × String))
    (hnd : (b.map Prod.fst).Nodup) (L : List (String × List String)) :
    writeAll root b ⟨[], L⟩ =
      .ok ⟨b.map (fun kc => (joinPath root kc.1, kc.2)), L⟩ := by
  rw [writeAll_pre root b ⟨[], L⟩ hnd (fun kc _ => Or.inl rfl)]
  have : b.filterMap (preF root ([] : List (String × String))) =
      b.map (fun kc => (joinPath root kc.1, kc.2)) :=
    List.filterMap_eq_map_iff_forall_eq_some.mpr fun kc _ => by simp [preF, lk]
  simp [this]

theorem lk_map_mem (root : String) :
    ∀ {b : List (String × String)}, (b.map Prod.fst).Nodup →
    ∀ {k c : String}, (k, c) ∈ b →
    lk (b.map fun kc => (joinPath root kc.1, kc.2)) (joinPath root k) =
      some c := by
  intro b
  induction b with
  | nil => intro _ k c h; simp at h
  | cons hd rest ih =>
    intro hnd k c hmem
    obtain ⟨k0, c0⟩ := hd
    have hnd2 : (rest.map Prod.fst).Nodup := (List.nodup_cons.mp (by simpa using hnd)).2
    have hknotin : k0 ∉ rest.map Prod.fst := (List.nodup_cons.mp (by simpa using hnd)).1
    rcases List.mem_cons.mp hmem with heq | hmem2
    · injection heq with h1 h2
      subst h1; subst h2
      simp [lk]
    · have hkne : k0 ≠ k := by
        intro h
        exact hknotin (h ▸ List.mem_map_of_mem Prod.fst hmem2)
      have : joinPath root k0 ≠ joinPath root k := fun h => hkne (joinPath_inj h)
      simp only [List.map_cons, lk, if_neg this]
      exact ih hnd2 hmem2

theorem lk_filterMap_pre (root : String)
    {fsfiles : List (String × String)} :
    ∀ {b : List (String × String)}, (b.map Prod.fst).Nodup →
    ∀ {k c : String}, (k, c) ∈ b →
    lk fsfiles (joinPath root k) = none →
    lk (b.filterMap (preF root fsfiles)) (joinPath root k) = some c := by
  intro b
  induction b with
  | nil => intro _ k c h; simp at h
  | cons hd rest ih =>
    intro hnd k c hmem hnone
    obtain ⟨k0, c0⟩ := hd
    have hnd2 : (rest.map Prod.fst).Nodup := (List.nodup_cons.mp (by simpa using hnd)).2
    have hknotin : k0 ∉ rest.map Prod.fst := (List.nodup_cons.mp (by simpa using hnd)).1
    rcases List.mem_cons.mp hmem with heq | hmem2
    · injection heq with h1 h2
      subst h1; subst h2
      simp only [List.filterMap_cons, preF, hnone, Option.isNone_none, if_pos]
      simp [lk]
    · have hkne : k0 ≠ k := by
        intro h
        exact hknotin (h ▸ List.mem_map_of_mem Prod.fst hmem2)
      have hjne : joinPath root k0 ≠ joinPath root k := fun h => hkne (joinPath_inj h)
      rw [List.filterMap_cons]
      cases hh : preF root fsfiles (k0, c0) with
      | none => exact ih hnd2 hmem2 hnone
      | some pr =>
        have : pr = (joinPath root k0, c0) := by
          simp only [preF] at hh
          by_cases hc : (lk fsfiles (joinPath root k0)).isNone
          · simpa [hc] using hh.symm
          · simp [hc] at hh
        subst this
        simp only [lk, if_neg hjne]
        exact ih hnd2 hmem2 hnone

/-- What one write of a possibly-conflicting file contributes to the
filesystem, provided its `.conflict1` variant path is free: a fresh target
is appended, an identical one is skipped, a differing one appends the
`.conflict1` variant. -/
def conF (root : String) (fsfiles : List (String × String))
    (kc : String × String) : Option (String × String) :=
  match lk fsfiles (joinPath root kc.1) with
  | none => some (joinPath root kc.1, kc.2)
  | some e =>
    if e = kc.2 then none
    else some (generateFileName (joinPath root kc.1) 1, kc.2)

theorem conF_eq_of_lk {root : String} {f1 f2 : List (String × String)}
    {kc : String × String}
    (h : lk f1 (joinPath root kc.1) = lk f2 (joinPath root kc.1)) :
    conF root f1 kc = conF root f2 kc := by
  simp [conF, h]

/-- A `writeAll` run in which every file resolves within one conflict
step: `.conflict1` variant paths are free in the starting state, no
target path is itself a `.conflict1` variant of another, and distinct
files have distinct `.conflict1` variants. -/
theorem writeAll_conflict (root : String) :
    ∀ (b : List (String × String)) (fs : Fs),
    (b.map Prod.fst).Nodup →
    (∀ kc ∈ b,
      lk fs.files (generateFileName (joinPath root kc.1) 1) = none) →
    (∀ kc ∈ b, ∀ kc2 ∈ b,
      joinPath root kc.1 ≠ generateFileName (joinPath root kc2.1) 1) →
    (∀ kc ∈ b, ∀ kc2 ∈ b, kc.1 ≠ kc2.1 →
      generateFileName (joinPath root kc.1) 1 ≠
        generateFileName (joinPath root kc2.1) 1) →
    writeAll root b fs =
      .ok ⟨fs.files ++ b.filterMap (conF root fs.files), fs.listing⟩ := by
  intro b
  induction b with
  | nil =>
    intro fs _ _ _ _
    simp [writeAll]
  | cons hd rest ih =>
    intro fs hnd hG hT hI
    obtain ⟨k, c⟩ := hd
    have hnd2 : (rest.map Prod.fst).Nodup := (List.nodup_cons.mp (by simpa using hnd)).2
    have hknotin : k ∉ rest.map Prod.fst := (List.nodup_cons.mp (by simpa using hnd)).1
    have hmemhd : (k, c) ∈ (k, c) :: rest := by simp
    have hrest : ∀ kc ∈ rest, kc ∈ (k, c) :: rest :=
      fun kc hkc => List.mem_cons_of_mem _ hkc
    have hkcne : ∀ kc ∈ rest, kc.1 ≠ k := by
      intro kc hkc h
      exact hknotin (h ▸ List.mem_map_of_mem Prod.fst hkc)
    rw [writeAll_cons]
    show (match tryWriteFuel fs (joinPath root k) c 0 1001 with
      | .ok fs' => writeAll root rest fs'
      | .error m => .error m) = _
    cases hcase : lk fs.files (joinPath root k) with
    | none =>
      rw [tw_fresh c hcase]
      show writeAll root rest ⟨fs.files ++ [(joinPath root k, c)], fs.listing⟩ = _
      have hlk : ∀ kc ∈ rest,
          lk (fs.files ++ [(joinPath root k, c)]) (joinPath root kc.1) =
            lk fs.files (joinPath root kc.1) := by
        intro kc hkc
        cases hc2 : lk fs.files (joinPath root kc.1) with
        | some v => exact lk_append_some _ hc2
        | none =>
          rw [lk_append_none _ hc2, lk_singleton, if_neg]
          exact fun h => hkcne kc hkc (joinPath_inj h).symm
      have hlkg : ∀ kc ∈ rest,
          lk (fs.files ++ [(joinPath root k, c)])
            (generateFileName (joinPath root kc.1) 1) = none := by
        intro kc hkc
        rw [lk_append_none _ (hG kc (hrest kc hkc)), lk_singleton, if_neg]
        exact hT (k, c) hmemhd kc (hrest kc hkc)
      rw [ih ⟨fs.files ++ [(joinPath root k, c)], fs.listing⟩ hnd2 hlkg
        (fun kc hkc kc2 hkc2 => hT kc (hrest kc hkc) kc2 (hrest kc2 hkc2))
        (fun kc hkc kc2 hkc2 => hI kc (hrest kc hkc) kc2 (hrest kc2 hkc2))]
      have hcongr : rest.filterMap
          (conF root (fs.files ++ [(joinPath root k, c)])) =
          rest.filterMap (conF root fs.files) :=
        List.filterMap_congr fun kc hkc => conF_eq_of_lk (hlk kc hkc)
      have hhd : conF root fs.files (k, c) = some (joinPath root k, c) := by
        simp [conF, hcase]
      simp [hcongr, List.filterMap_cons, hhd]
    | some e =>
      by_cases hec : e = c
      · subst hec
        rw [tw_skip hcase]
        show writeAll root rest fs = _
        rw [ih fs hnd2
          (fun kc hkc => hG kc (hrest kc hkc))
          (fun kc hkc kc2 hkc2 => hT kc (hrest kc hkc) kc2 (hrest kc2 hkc2))
          (fun kc hkc kc2 hkc2 => hI kc (hrest kc hkc) kc2 (hrest kc2 hkc2))]
        have hhd : conF root fs.files (k, e) = none := by
          simp [conF, hcase]
        simp [List.filterMap_cons, hhd]
      · rw [tw_conflict hcase hec (hG (k, c) hmemhd)]
        show writeAll root rest
          ⟨fs.files ++ [(generateFileName (joinPath root k) 1, c)],
            fs.listing⟩ = _
        have hlk : ∀ kc ∈ rest,
            lk (fs.files ++ [(generateFileName (joinPath root k) 1, c)])
              (joinPath root kc.1) = lk fs.files (joinPath root kc.1) := by
          intro kc hkc
          cases hc2 : lk fs.files (joinPath root kc.1) with
          | some v => exact lk_append_some _ hc2
          | none =>
            rw [lk_append_none _ hc2, lk_singleton, if_neg]
            exact fun h => hT kc (hrest kc hkc) (k, c) hmemhd h.symm
        have hlkg : ∀ kc ∈ rest,
            lk (fs.files ++ [(generateFileName (joinPath root k) 1, c)])
              (generateFileName (joinPath root kc.1) 1) = none := by
          intro kc hkc
          rw [lk_append_none _ (hG kc (hrest kc hkc)), lk_singleton, if_neg]
          exact hI (k, c) hmemhd kc (hrest kc hkc) fun h => hkcne kc hkc h.symm
        rw [ih ⟨fs.files ++ [(generateFileName (joinPath root k) 1, c)],
            fs.listing⟩ hnd2 hlkg
          (fun kc hkc kc2 hkc2 => hT kc (hrest kc hkc) kc2 (hrest kc2 hkc2))
          (fun kc hkc kc2 hkc2 => hI kc (hrest kc hkc) kc2 (hrest kc2 hkc2))]
        have hcongr : rest.filterMap
            (conF root (fs.files ++
              [(generateFileName (joinPath root k) 1, c)])) =
            rest.filterMap (conF root fs.files) :=
          List.filterMap_congr fun kc hkc => conF_eq_of_lk (hlk kc hkc)
        have hhd : conF root fs.files (k, c) =
            some (generateFileName (joinPath root k) 1, c) := by
          simp [conF, hcase, hec]
        simp [hcongr, List.filterMap_cons, hhd]

/-- In the contribution list of a conflicting run, the `.conflict1` variant
of a shared, differing path holds the new content. -/
theorem lk_filterMap_conflict (root : String)
    {fsfiles : List (String × String)} :
    ∀ {b : List (String × String)}, (b.map Prod.fst).Nodup →
    ∀ {p c1 c2 : String}, (p, c2) ∈ b →
    lk fsfiles (joinPath root p) = some c1 → c1 ≠ c2 →
    (∀ kc ∈ b, joinPath root kc.1 ≠
      generateFileName (joinPath root p) 1) →
    (∀ kc ∈ b, kc.1 ≠ p → generateFileName (joinPath root kc.1) 1 ≠
      generateFileName (joinPath root p) 1) →
    lk (b.filterMap (conF root fsfiles))
      (generateFileName (joinPath root p) 1) = some c2 := by
  intro b
  induction b with
  | nil => intro _ p c1 c2 h; simp at h
  | cons hd rest ih =>
    intro hnd p c1 c2 hmem hc1 hne hT hI
    obtain ⟨k0, c0⟩ := hd
    have hnd2 : (rest.map Prod.fst).Nodup := (List.nodup_cons.mp (by simpa using hnd)).2
    have hknotin : k0 ∉ rest.map Prod.fst := (List.nodup_cons.mp (by simpa using hnd)).1
    have hrest : ∀ kc ∈ rest, kc ∈ (k0, c0) :: rest :=
      fun kc hkc => List.mem_cons_of_mem _ hkc
    by_cases hk0 : k0 = p
    · subst hk0
      have hhd : (k0, c0) = (k0, c2) := by
        rcases List.mem_cons.mp hmem with heq | hmem2
        · exact heq.symm ▸ rfl
        · exact absurd (List.mem_map_of_mem Prod.fst hmem2) hknotin
      injection hhd with _ h2
      subst h2
      have : conF root fsfiles (k0, c0) =
          some (generateFileName (joinPath root k0) 1, c0) := by
        simp [conF, hc1, fun h => hne (h : c1 = c0)]
      simp [List.filterMap_cons, this, lk]
    · have hmem2 : (p, c2) ∈ rest := by
        rcases List.mem_cons.mp hmem with heq | hmem2
        · injection heq with h1 _; exact absurd h1.symm hk0
        · exact hmem2
      rw [List.filterMap_cons]
      have htail := ih hnd2 hmem2 hc1 hne
        (fun kc hkc => hT kc (hrest kc hkc))
        (fun kc hkc => hI kc (hrest kc hkc))
      cases hh : conF root fsfiles (k0, c0) with
      | none => exact htail
      | some pr =>
        have hkey : pr.1 ≠ generateFileName (joinPath root p) 1 := by
          cases hc : lk fsfiles (joinPath root k0) with
          | none =>
            simp only [conF, hc] at hh
            injection hh with hh2
            rw [← hh2]
            exact hT (k0, c0) (by simp)
          | some e =>
            simp only [conF, hc] at hh
            by_cases he : e = c0
            · simp [he] at hh
            · rw [if_neg he] at hh
              injection hh with hh2
              rw [← hh2]
              exact hI (k0, c0) (by simp) hk0
        obtain ⟨prk, prv⟩ := pr
        simp only [lk, if_neg hkey]
        exact htail

theorem writeAll_append_single (root : String) (x : String × String) :
    ∀ (b : List (String × String)) (fs : Fs),
    writeAll root (b ++ [x]) fs =
      (match writeAll root b fs with
       | .ok fs2 => writeSourceWithMerge fs2 x.1 x.2 root
       | .error m => .error m) := by
  intro b
  induction b with
  | nil =>
    intro fs
    obtain ⟨k, c⟩ := x
    show writeAll root [(k, c)] fs = _
    rw [writeAll_cons]
    cases h : writeSourceWithMerge fs k c root <;> simp [writeAll, h]
  | cons hd rest ih =>
    intro fs
    obtain ⟨k, c⟩ := hd
    rw [List.cons_append, writeAll_cons, writeAll_cons]
    cases h : writeSourceWithMerge fs k c root <;> simp [ih]

/-- The full list of files one `main` run writes: the bundle's sources
plus, when the `remappings` value is truthy (present), the
`remappings.txt` entry holding the newline-join. -/
def bundleFiles (sources : List (String × String))
    (remappings : Option (List String)) : List (String × String) :=
  sources ++
    match remappings with
    | some l => [("remappings.txt", String.intercalate "\n" l)]
    | none => []

/-- Under the Merge policy the write phase is exactly a `writeAll` of
`bundleFiles`. -/
theorem materialize_merge_eq (root : String)
    (sources : List (String × String)) (remappings : Option (List String))
    (fs : Fs) :
    materialize true root sources remappings fs =
      writeAll root (bundleFiles sources remappings) fs := by
  cases remappings with
  | none =>
    show (match writeAll root sources fs with
      | .error m => (.error m : Except String Fs)
      | .ok fs2 => .ok fs2) = _
    rw [bundleFiles, List.append_nil]
    cases h : writeAll root sources fs <;> simp
  | some l =>
    show (match writeAll root sources fs with
      | .error m => (.error m : Except String Fs)
      | .ok fs2 => writeSourceWithMerge fs2 "remappings.txt"
          (String.intercalate "\n" l) root) = _
    rw [bundleFiles, writeAll_append_single]
    cases h : writeAll root sources fs <;> simp

/-- Path segments of a URL are never the empty string (the
`filter(Boolean)` of clone.js line 15). -/
theorem mem_pathSegs_ne_empty {u : UrlObj} {s : String}
    (h : s ∈ pathSegs u) : s ≠ "" := by
  have := List.of_mem_filter h
  simpa using this

/-! ## Characterizations of the resolver branches -/

theorem isAddress_ne_empty {a : String} (h : isAddress a = true) : a ≠ "" := by
  intro he
  rw [he] at h
  exact absurd h (by decide)

theorem aggBranch_nil : aggBranch [] = .error (wrapErr aggErrMsg) := rfl

theorem aggBranch_single (s : String) :
    aggBranch [s] = .error (wrapErr aggErrMsg) := rfl

theorem aggBranch_cons2 (s0 s1 : String) (rest : List String) :
    aggBranch (s0 :: s1 :: rest) =
      if s0 ≠ "" ∧ isAddress s1 ∧ s1 ≠ "" then .ok ⟨s1, some (.name s0)⟩
      else .error (wrapErr aggErrMsg) := by
  have hlen : 2 ≤ (s0 :: s1 :: rest).length := by
    simp [List.length_cons]
  simp only [aggBranch, hlen, if_pos, List.get?, List.getD]
  by_cases h1 : isAddress s1
  · by_cases h0 : s0 = ""
    · simp [h0, jsTruthyS, h1]
    · by_cases h1e : s1 = ""
      · exact absurd (h1e ▸ h1) (by decide)
      · simp [h0, h1e, jsTruthyS, h1]
  · simp [jsTruthyS, h1]

theorem aggBranch_ok_isAddress {segs : List String} {r : Resolved}
    (h : aggBranch segs = .ok r) : isAddress r.contractAddress := by
  match segs with
  | [] => rw [aggBranch_nil] at h; exact Except.noConfusion h
  | [s] => rw [aggBranch_single] at h; exact Except.noConfusion h
  | s0 :: s1 :: rest =>
    rw [aggBranch_cons2] at h
    by_cases hc : s0 ≠ "" ∧ isAddress s1 ∧ s1 ≠ ""
    · rw [if_pos hc] at h
      injection h with h2
      rw [← h2]
      exact hc.2.1
    · rw [if_neg hc] at h; exact Except.noConfusion h

theorem genericBranch_fallback_ok_isAddress {reg : String → Option Nat}
    {domain : String} {segs : List String} {r : Resolved}
    (h : genericBranch reg domain segs = .ok r)
    (hmk : markerNext segs = none) : isAddress r.contractAddress := by
  simp only [genericBranch, hmk] at h
  by_cases hz : (reg domain).getD 0 = 0
  · rw [if_pos hz] at h; exact Except.noConfusion h
  · rw [if_neg hz] at h
    cases hf : segs.find? isAddress with
    | none => rw [hf] at h; simp [jsTruthyS] at h
    | some a =>
      rw [hf] at h
      have ha := List.find?_some hf
      have hane : a ≠ "" := isAddress_ne_empty ha
      simp only [jsTruthyS, hane] at h
      rw [if_pos (by simp [hane])] at h
      injection h with h2
      rw [← h2]
      exact ha

theorem tryParse_parsed {reg : String → Option Nat}
    {parseUrl : String → Option UrlObj} {tok : String} {u : UrlObj}
    (hu : parseUrl tok = some u) :
    tryParseExplorerUrl reg parseUrl tok =
      (if u.hostname = aggregatorHost then aggBranch (pathSegs u)
       else genericBranch reg u.hostname (pathSegs u)) := by
  simp [tryParseExplorerUrl, hu]

theorem genericBranch_marker {reg : String → Option Nat}
    {domain : String} {segs : List String} {n : Nat} {nxt : String}
    (hreg : reg domain = some n) (hn : n ≠ 0)
    (hmk : markerNext segs = some nxt) (hne : nxt ≠ "") :
    genericBranch reg domain segs = .ok ⟨nxt, some (.id n)⟩ := by
  simp [genericBranch, hreg, hn, hmk, jsTruthyS, hne]

theorem genericBranch_fallback {reg : String → Option Nat}
    {domain : String} {segs : List String} {n : Nat}
    (hreg : reg domain = some n) (hn : n ≠ 0)
    (hmk : markerNext segs = none) :
    genericBranch reg domain segs =
      (match segs.find? isAddress with
       | some a => .ok ⟨a, some (.id n)⟩
       | none => .error (wrapErr "Contract address not found in URL")) := by
  simp only [genericBranch, hreg, hmk, Option.getD_some, if_neg hn]
  cases hf : segs.find? isAddress with
  | none => simp [jsTruthyS]
  | some a =>
    have hane : a ≠ "" := isAddress_ne_empty (List.find?_some hf)
    simp [jsTruthyS, hane]

theorem markerNext_some_ne_empty {segs : List String} {nxt : String}
    (h : markerNext segs = some nxt) : nxt ≠ "" := by
  unfold markerNext at h
  cases hidx : segs.findIdx? isMarker with
  | none => rw [hidx] at h; exact Option.noConfusion h
  | some i =>
    simp only [hidx] at h
    cases hget : segs.get? (i + 1) with
    | none => simp only [hget] at h; exact Option.noConfusion h
    | some s =>
      simp only [hget] at h
      by_cases hs : s = ""
      · simp [hs] at h
      · rw [if_pos hs] at h
        injection h with h2
        rw [← h2]
        exact hs

/-! ## Concrete fixtures for witnesses and counterexamples -/

/-- A 40-hex-digit test address. -/
def addrA : String := "0xaaaaaaaaaaaaaaaaaaaaaaaaaaaaaaaaaaaaaaaa"

/-- Registry fixture: `etherscan.io ↦ 1`, an entry of the generated
`chains.json`. -/
def regFix : String → Option Nat :=
  fun d => if d = "etherscan.io" then some 1 else none

/-- An aggregator URL whose path carries chain `1` and `addrA`. -/
def aggUrl : String := "https://vscode.blockscan.com/1/" ++ addrA

/-- URL-parse fixture for `aggUrl` (what `new URL(aggUrl)` yields). -/
def parseFixAgg : String → Option UrlObj :=
  fun t =>
    if t = aggUrl then some ⟨"vscode.blockscan.com", "/1/" ++ addrA⟩ else none

/-- An etherscan URL whose final path segment is the marker `address`,
with the address-shaped segment before it. -/
def markerLastUrl : String := "https://etherscan.io/" ++ addrA ++ "/address"

/-- URL-parse fixture for `markerLastUrl`. -/
def parseFixMarkerLast : String → Option UrlObj :=
  fun t =>
    if t = markerLastUrl then some ⟨"etherscan.io", "/" ++ addrA ++ "/address"⟩
    else none

/-- An etherscan URL of the common `/address/{addr}` shape. -/
def markerUrl : String := "https://etherscan.io/address/" ++ addrA

/-- URL-parse fixture for `markerUrl`. -/
def parseFixMarker : String → Option UrlObj :=
  fun t =>
    if t = markerUrl then some ⟨"etherscan.io", "/address/" ++ addrA⟩
    else none

/-! ## C1 -/

/-- **C1** (the code contradicts its own help text): the spec — and the
program's own usage text, clone.js line 251, "Ignored when using explorer
URL (chain auto-detected)" — says the `--chain` flag is ignored when the
contract argument is a URL.  The code computes
`chain = chain || parsed.chainId || "ethereum"` (clone.js line 124), which
gives the flag precedence.  On `--chain polygon <aggregator URL for chain
1>`, `parseArgs` returns chain `polygon`, not the URL-derived `1`. -/
theorem c1_chain_flag_overrides_url :
    parseArgs (fun _ => none) parseFixAgg ["--chain", "polygon", aggUrl] =
      .ok ⟨.name "polygon", some addrA, none, false⟩ ∧
    ChainId.name "polygon" ≠ ChainId.name "1" :=
  ⟨rfl, by decide⟩

/-! ## C2 -/

/-- **C2** is false as stated: a token that fails URL parsing is returned
verbatim as the contract address with no pattern check (clone.js lines
84-88).  `resolve "hello"` succeeds with `contractAddress = "hello"`,
which does not match `^0x[0-9a-fA-F]{40}$` — and "hello" is also a token
from which no such address can be produced, yet resolution does not
fail. -/
theorem c2_counterexample_bare_token :
    tryParseExplorerUrl (fun _ => none) (fun _ => none) "hello" =
      .ok ⟨"hello", none⟩ ∧ isAddress "hello" = false :=
  ⟨rfl, rfl⟩

/-- **C2** (amended): the address-pattern invariant holds exactly on the
two validated paths — a successful resolution of an aggregator-host URL,
and a successful resolution of a generic-explorer URL in which no marker
segment selects a following segment (the fallback scan).  Tokens that fail
URL parsing, and segments selected by a marker, are returned without
validation. -/
theorem c2_validated_paths_pattern (reg : String → Option Nat)
    (parseUrl : String → Option UrlObj) (tok : String) (u : UrlObj)
    (r : Resolved) (hu : parseUrl tok = some u)
    (hok : tryParseExplorerUrl reg parseUrl tok = .ok r) :
    (u.hostname = aggregatorHost → isAddress r.contractAddress) ∧
    (markerNext (pathSegs u) = none → isAddress r.contractAddress) := by
  rw [tryParse_parsed hu] at hok
  by_cases hagg : u.hostname = aggregatorHost
  · rw [if_pos hagg] at hok
    have haddr := aggBranch_ok_isAddress hok
    exact ⟨fun _ => haddr, fun _ => haddr⟩
  · rw [if_neg hagg] at hok
    exact ⟨fun h => absurd h hagg,
           fun hmk => genericBranch_fallback_ok_isAddress hok hmk⟩

theorem c2_validated_paths_pattern_witness :
    ((⟨"vscode.blockscan.com", "/1/" ++ addrA⟩ : UrlObj).hostname =
        aggregatorHost → isAddress addrA) ∧
    (markerNext (pathSegs ⟨"vscode.blockscan.com", "/1/" ++ addrA⟩) = none →
      isAddress addrA) :=
  c2_validated_paths_pattern (fun _ => none) parseFixAgg aggUrl
    ⟨"vscode.blockscan.com", "/1/" ++ addrA⟩ ⟨addrA, some (.name "1")⟩
    rfl rfl

/-! ## C3 -/

/-- **C3** is false as stated: the fallback scan is not applied *only*
when no marker segment exists.  The guard of clone.js line 63 is
`addressIndex !== -1 && pathSegments[addressIndex + 1]`, so a marker that
is the final path segment also sends resolution into the fallback scan.
On `https://etherscan.io/{addr}/address` a marker segment exists (index
1), no segment follows it, and resolution nevertheless succeeds — by
scanning — with the first path segment. -/
theorem c3_counterexample_marker_last :
    (pathSegs ⟨"etherscan.io", "/" ++ addrA ++ "/address"⟩).findIdx?
        isMarker = some 1 ∧
    (pathSegs ⟨"etherscan.io", "/" ++ addrA ++ "/address"⟩).get? 2 = none ∧
    tryParseExplorerUrl regFix parseFixMarkerLast markerLastUrl =
      .ok ⟨addrA, some (.id 1)⟩ :=
  ⟨rfl, rfl, rfl⟩

/-- **C3** (amended): on a registered generic-explorer host, when the
marker search selects a following segment (a marker exists *and* is
followed by one), that segment is returned; the fallback scan of all path
segments is applied exactly when the marker search selects nothing —
because no marker exists or the marker is the final segment — and
resolution fails only when the fallback also finds no address-shaped
segment. -/
theorem c3_marker_then_fallback (reg : String → Option Nat)
    (parseUrl : String → Option UrlObj) (tok : String) (u : UrlObj)
    (n : Nat) (hu : parseUrl tok = some u)
    (hhost : u.hostname ≠ aggregatorHost)
    (hreg : reg u.hostname = some n) (hn : n ≠ 0) :
    (∀ nxt, markerNext (pathSegs u) = some nxt →
      tryParseExplorerUrl reg parseUrl tok = .ok ⟨nxt, some (.id n)⟩) ∧
    (markerNext (pathSegs u) = none →
      tryParseExplorerUrl reg parseUrl tok =
        (match (pathSegs u).find? isAddress with
         | some a => .ok ⟨a, some (.id n)⟩
         | none => .error (wrapErr "Contract address not found in URL"))) := by
  rw [tryParse_parsed hu, if_neg hhost]
  exact ⟨fun nxt hmk =>
      genericBranch_marker hreg hn hmk (markerNext_some_ne_empty hmk),
    fun hmk => genericBranch_fallback hreg hn hmk⟩

theorem c3_marker_then_fallback_witness :
    tryParseExplorerUrl regFix parseFixMarker markerUrl =
      .ok ⟨addrA, some (.id 1)⟩ :=
  (c3_marker_then_fallback regFix parseFixMarker markerUrl
      ⟨"etherscan.io", "/address/" ++ addrA⟩ 1 rfl (by decide) rfl
      (by decide)).1 addrA rfl

/-! ## C4 -/

/-- **C4**: on the aggregator host, a path `/{id}/{addr}` with a
pattern-matching `addr` resolves to `{contractAddress: addr,
chainIdentifier: id}` with `id` taken verbatim — the conclusion does not
depend on the registry `reg` at all; and resolution fails with the
Blockscan format error when fewer than two segments exist or the second
segment does not match the pattern. -/
theorem c4_aggregator_format (reg : String → Option Nat)
    (parseUrl : String → Option UrlObj) (tok : String) (u : UrlObj)
    (hu : parseUrl tok = some u) (hhost : u.hostname = aggregatorHost) :
    (∀ id addr rest, pathSegs u = id :: addr :: rest → isAddress addr →
      tryParseExplorerUrl reg parseUrl tok = .ok ⟨addr, some (.name id)⟩) ∧
    ((pathSegs u).length < 2 ∨ isAddress ((pathSegs u).getD 1 "") = false →
      tryParseExplorerUrl reg parseUrl tok = .error (wrapErr aggErrMsg)) := by
  rw [tryParse_parsed hu, if_pos hhost]
  constructor
  · intro id addr rest hsegs haddr
    rw [hsegs, aggBranch_cons2, if_pos]
    exact ⟨mem_pathSegs_ne_empty (hsegs ▸ List.mem_cons_self id _),
      haddr, isAddress_ne_empty haddr⟩
  · intro hfail
    cases hsegs : pathSegs u with
    | nil => exact aggBranch_nil
    | cons s0 tail =>
      cases tail with
      | nil => exact aggBranch_single s0
      | cons s1 rest =>
        rw [hsegs] at hfail
        have haddr1 : isAddress s1 = false := by
          rcases hfail with hlen | haddr1
          · simp [List.length_cons] at hlen
            omega
          · simpa using haddr1
        rw [aggBranch_cons2, if_neg]
        intro hc
        rw [hc.2.1] at haddr1
        exact Bool.noConfusion haddr1

theorem c4_aggregator_format_witness :
    tryParseExplorerUrl (fun _ => none) parseFixAgg aggUrl =
      .ok ⟨addrA, some (.name "1")⟩ :=
  (c4_aggregator_format (fun _ => none) parseFixAgg aggUrl
      ⟨"vscode.blockscan.com", "/1/" ++ addrA⟩ rfl rfl).1 "1" addrA [] rfl rfl

/-! ## C5 -/

/-- A payload whose `JSON.parse` yields an object with an *empty*
`sources` mapping and no `settings` (the braces are written with
hex escapes): `{"sources":{}}`. -/
def emptySourcesPayload : String := "\x7b\"sources\":\x7b\x7d\x7d"

/-- `JSON.parse` fixture, faithful to the real parse of
`emptySourcesPayload`: an object whose `sources` field is the empty
mapping and whose `settings` is absent. -/
def parseFixEmptySources : String → Option SolcJson :=
  fun t => if t = emptySourcesPayload then some ⟨some [], none⟩ else none

/-- **C5** is false as stated: when the raw payload *does* parse as
structured JSON, `fetchSource` returns `result.sources` verbatim with no
non-emptiness check (clone.js lines 147-151).  A response whose `result`
is the well-formed payload `{"sources":{}}` fetches successfully with an
empty files mapping. -/
theorem c5_counterexample_empty_sources :
    fetchSource parseFixEmptySources
      ⟨some emptySourcesPayload, some "Foo", some "sol",
        none, none, none, none⟩ =
      .ok ⟨some "Foo", some [], none⟩ :=
  rfl

/-- **C5** (amended): when the selected raw source payload is truthy but
fails to parse as structured JSON, the bundle contains exactly one
synthetic entry named `{contractName}.{ext}` whose content is the raw
payload; when it parses, the parsed `sources` mapping is returned
verbatim, with no guarantee that it is non-empty. -/
theorem c5_parse_failure_synthetic_entry (parse : String → Option SolcJson)
    (api : ApiResponse) (s : String)
    (hsel : (if jsTruthyS api.proxyAddress then api.proxyResult
      else api.result) = some s)
    (hs : s ≠ "") (hparse : parse s = none) :
    fetchSource parse api = .ok
      ⟨(if jsTruthyS api.proxyAddress then api.proxyContractName
          else api.contractName),
        some [(jsStr (if jsTruthyS api.proxyAddress then api.proxyContractName
            else api.contractName) ++ "." ++
          jsStr (if jsTruthyS api.proxyAddress then api.proxyExt
            else api.ext), s)],
        none⟩ := by
  by_cases hp : jsTruthyS api.proxyAddress = true
  · rw [if_pos hp] at hsel
    simp only [fetchSource, hp, if_true, hsel]
    simp [jsTruthyS, hs, hparse]
  · rw [Bool.not_eq_true] at hp
    rw [if_neg (by simp [hp])] at hsel
    simp only [fetchSource, hp, Bool.false_eq_true, if_false, hsel]
    simp [jsTruthyS, hs, hparse]

theorem c5_parse_failure_synthetic_entry_witness :
    fetchSource (fun _ => none)
      ⟨some "raw source text", some "Foo", some "sol",
        none, none, none, none⟩ =
      .ok ⟨some "Foo", some [("Foo.sol", "raw source text")], none⟩ :=
  c5_parse_failure_synthetic_entry (fun _ => none)
    ⟨some "raw source text", some "Foo", some "sol", none, none, none, none⟩
    "raw source text" rfl (by decide) rfl

/-! ## C10 -/

/-- **C10**: when `proxyAddress` is truthy, only the proxy fields are
consulted: the result is invariant under arbitrary changes to `result`,
`contractName` and `ext`, and a falsy `proxyResult` fails with the
no-source error no matter what `result` holds — there is no fallback from
the proxy fields to the direct ones (clone.js lines 140-144). -/
theorem c10_proxy_fields_only (parse : String → Option SolcJson)
    (api : ApiResponse) (hp : jsTruthyS api.proxyAddress = true) :
    (jsTruthyS api.proxyResult = false →
      fetchSource parse api = .error "No source found") ∧
    (∀ r n e, fetchSource parse
      { api with result := r, contractName := n, ext := e } =
        fetchSource parse api) := by
  constructor
  · intro hfalsy
    simp [fetchSource, hp, hfalsy]
  · intro r n e
    simp [fetchSource, hp]

theorem c10_proxy_fields_only_witness :
    (jsTruthyS (some "") = false →
      fetchSource (fun _ => none)
        ⟨some "usable direct source", some "Foo", some "sol",
          some "0xdead", some "", none, none⟩ =
        .error "No source found") ∧
    (∀ r n e, fetchSource (fun _ => none)
      ⟨r, n, e, some "0xdead", some "", none, none⟩ =
        fetchSource (fun _ => none)
          ⟨some "usable direct source", some "Foo", some "sol",
            some "0xdead", some "", none, none⟩) :=
  c10_proxy_fields_only (fun _ => none)
    ⟨some "usable direct source", some "Foo", some "sol",
      some "0xdead", some "", none, none⟩ rfl

theorem bundleFiles_none (sources : List (String × String)) :
    bundleFiles sources none = sources := by
  simp [bundleFiles]

/-! ## C6 -/

/-- **C6** is false as stated: the guard at clone.js line 300 is
`if (remappings)`, and a JS array — the empty one included — is truthy,
so a present-but-*empty* remappings sequence still writes
`remappings.txt`, with empty content (`[].join("\n") === ""`).  The claim
requires the file to be written only when the sequence is non-empty. -/
theorem c6_counterexample_empty_remappings :
    materialize true "out" [] (some []) ⟨[], []⟩ =
      .ok ⟨[("out/remappings.txt", "")], []⟩ :=
  rfl

/-- **C6** (amended): `remappings.txt` is written at the destination root
iff the bundle's remappings sequence is *present* (empty or not), and its
content is exactly the remapping strings joined by newlines with no
further processing.  (Stated for a fresh destination and sources with
distinct names, none of them `remappings.txt`.) -/
theorem c6_remappings_written_iff_present (root : String)
    (sources : List (String × String)) (remappings : Option (List String))
    (L : List (String × List String))
    (hnd : (sources.map Prod.fst).Nodup)
    (hnr : "remappings.txt" ∉ sources.map Prod.fst) :
    ∃ fs2, materialize true root sources remappings ⟨[], L⟩ = .ok fs2 ∧
      lk fs2.files (joinPath root "remappings.txt") =
        remappings.map (fun l => String.intercalate "\n" l) := by
  rw [materialize_merge_eq]
  have hndb : ((bundleFiles sources remappings).map Prod.fst).Nodup := by
    cases remappings with
    | none => simpa [bundleFiles] using hnd
    | some l =>
      rw [bundleFiles, List.map_append, List.nodup_append]
      refine ⟨hnd, by simp, ?_⟩
      intro a ha hb
      simp only [List.map_cons, List.map_nil, List.mem_singleton] at hb
      subst hb
      exact hnr ha
  refine ⟨_, writeAll_from_empty root _ hndb L, ?_⟩
  have hsrc : lk (sources.map fun kc => (joinPath root kc.1, kc.2))
      (joinPath root "remappings.txt") = none := by
    apply lk_eq_none
    intro kv hkv
    simp only [List.mem_map] at hkv
    obtain ⟨kc, hkc, rfl⟩ := hkv
    intro heq
    exact hnr ((joinPath_inj heq) ▸ List.mem_map_of_mem Prod.fst hkc)
  cases remappings with
  | none =>
    simpa [bundleFiles] using hsrc
  | some l =>
    simp only [bundleFiles, List.map_append, Option.map_some']
    rw [lk_append_none _ hsrc]
    simp [lk]

theorem c6_remappings_written_iff_present_witness :
    ∃ fs2, materialize true "out" [("a.sol", "x")] (some ["@x/=lib/x/"])
        ⟨[], []⟩ = .ok fs2 ∧
      lk fs2.files (joinPath "out" "remappings.txt") =
        (some ["@x/=lib/x/"]).map (fun l => String.intercalate "\n" l) :=
  c6_remappings_written_iff_present "out" [("a.sol", "x")]
    (some ["@x/=lib/x/"]) [] (by decide) (by decide)

/-! ## C7 -/

/-- **C7**: under the Strict policy (merge off) the destination is
inspected *before* any write — in this model as in clone.js lines
290-298, `checkOutputDirectory` runs and aborts before `writeAll` — so a
destination whose listing has at least one entry (a lone hidden file
included) fails with the not-empty error, producing no filesystem change;
an absent destination (`readdir` throwing `ENOENT`) is not an error, and
the run proceeds exactly as a Merge run over the same state would. -/
theorem c7_strict_precheck (root : String)
    (sources : List (String × String)) (remappings : Option (List String))
    (fs : Fs) :
    (∀ e es, lk fs.listing root = some (e :: es) →
      materialize false root sources remappings fs = .error dirNotEmptyMsg) ∧
    (lk fs.listing root = none →
      materialize false root sources remappings fs =
        materialize true root sources remappings fs) := by
  constructor
  · intro e es hls
    simp [materialize, checkOutputDirectory, hls]
  · intro hls
    simp [materialize, checkOutputDirectory, hls]

theorem c7_strict_precheck_witness :
    materialize false "out" [("a.sol", "x")] none
      ⟨[], [("out", [".hidden"])]⟩ = .error dirNotEmptyMsg :=
  (c7_strict_precheck "out" [("a.sol", "x")] none
    ⟨[], [("out", [".hidden"])]⟩).1 ".hidden" [] rfl

/-! ## C8 -/

/-- **C8** is false as stated: with a pre-existing differing file at a
target path, the identical-content skip (clone.js lines 216-221) applies
at counter 0 only, so the first run adds `a.conflict1.sol` and the second
run — finding `a.sol` different and `a.conflict1.sol` occupied, with no
content comparison at counter 1 — adds `a.conflict2.sol`: the second run
is not skipped and the file count grows from 2 to 3. -/
theorem c8_counterexample_conflict_cascade :
    materialize true "out" [("a.sol", "new")] none
      ⟨[("out/a.sol", "old")], []⟩ =
      .ok ⟨[("out/a.sol", "old"), ("out/a.conflict1.sol", "new")], []⟩ ∧
    materialize true "out" [("a.sol", "new")] none
      ⟨[("out/a.sol", "old"), ("out/a.conflict1.sol", "new")], []⟩ =
      .ok ⟨[("out/a.sol", "old"), ("out/a.conflict1.sol", "new"),
        ("out/a.conflict2.sol", "new")], []⟩ :=
  ⟨rfl, rfl⟩

/-- **C8** (amended): merge idempotence holds whenever the first run
causes no conflict — every target path of the bundle (the `remappings`
entry included) starts out absent or already identical, an initially
empty destination being the main case.  The second Merge materialization
then returns the first run's filesystem unchanged, every write skipping
as byte-identical. -/
theorem c8_merge_idempotent (root : String)
    (sources : List (String × String)) (remappings : Option (List String))
    (fs0 : Fs)
    (hnd : ((bundleFiles sources remappings).map Prod.fst).Nodup)
    (hpre : ∀ kc ∈ bundleFiles sources remappings,
      lk fs0.files (joinPath root kc.1) = none ∨
      lk fs0.files (joinPath root kc.1) = some kc.2) :
    ∃ fs1, materialize true root sources remappings fs0 = .ok fs1 ∧
      materialize true root sources remappings fs1 = .ok fs1 := by
  refine ⟨⟨fs0.files ++ (bundleFiles sources remappings).filterMap
      (preF root fs0.files), fs0.listing⟩, ?_, ?_⟩
  · rw [materialize_merge_eq]
    exact writeAll_pre root _ fs0 hnd hpre
  · rw [materialize_merge_eq]
    have hall : ∀ kc ∈ bundleFiles sources remappings,
        lk (fs0.files ++ (bundleFiles sources remappings).filterMap
          (preF root fs0.files)) (joinPath root kc.1) = some kc.2 := by
      intro kc hkc
      rcases hpre kc hkc with h | h
      · rw [lk_append_none _ h]
        exact lk_filterMap_pre root hnd hkc h
      · exact lk_append_some _ h
    rw [writeAll_pre root (bundleFiles sources remappings)
      ⟨fs0.files ++ (bundleFiles sources remappings).filterMap
        (preF root fs0.files), fs0.listing⟩ hnd
      (fun kc hkc => Or.inr (hall kc hkc))]
    have hnil : (bundleFiles sources remappings).filterMap
        (preF root (fs0.files ++ (bundleFiles sources remappings).filterMap
          (preF root fs0.files))) = [] := by
      apply List.filterMap_eq_nil_iff.mpr
      intro kc hkc
      simp [preF, hall kc hkc]
    simp [hnil]

theorem c8_merge_idempotent_witness :
    ∃ fs1, materialize true "out" [("a.sol", "x")] none ⟨[], []⟩ =
        .ok fs1 ∧
      materialize true "out" [("a.sol", "x")] none fs1 = .ok fs1 :=
  c8_merge_idempotent "out" [("a.sol", "x")] none ⟨[], []⟩ (by decide)
    (by decide)

/-! ## C9 -/

/-- **C9** is false as stated: a second-bundle file whose name coincides
with the `.conflict1` variant of the shared path occupies that path
first, and the conflicting shared file — exclusive-created with no
content comparison past counter 0 — lands at `.conflict2` instead.  The
`.conflict1`-suffixed file then holds `"z"`, not the second bundle's
content `"c2"` as the claim requires. -/
theorem c9_counterexample_variant_collision :
    materialize true "out" [("a.sol", "c1")] none ⟨[], []⟩ =
      .ok ⟨[("out/a.sol", "c1")], []⟩ ∧
    materialize true "out" [("a.conflict1.sol", "z"), ("a.sol", "c2")] none
      ⟨[("out/a.sol", "c1")], []⟩ =
      .ok ⟨[("out/a.sol", "c1"), ("out/a.conflict1.sol", "z"),
        ("out/a.conflict2.sol", "c2")], []⟩ :=
  ⟨rfl, rfl⟩

/-- **C9** (amended): conflict safety holds for two bundles sharing path
`p` with differing contents, materialized in sequence into an initially
empty destination, provided no file path of either bundle coincides with
a `.conflict1` variant of a second-bundle path and distinct second-bundle
paths have distinct variants: the shared path keeps the first bundle's
content, the `.conflict1` variant holds the second bundle's content, and
no file of the first run is overwritten. -/
theorem c9_conflict_safety (root p c1 c2 : String)
    (b1 b2 : List (String × String)) (L : List (String × List String))
    (h1 : (b1.map Prod.fst).Nodup) (h2 : (b2.map Prod.fst).Nodup)
    (hm1 : (p, c1) ∈ b1) (hm2 : (p, c2) ∈ b2) (hne : c1 ≠ c2)
    (hT : ∀ kc ∈ b1 ++ b2, ∀ kc2 ∈ b2,
      joinPath root kc.1 ≠ generateFileName (joinPath root kc2.1) 1)
    (hI : ∀ kc ∈ b2, ∀ kc2 ∈ b2, kc.1 ≠ kc2.1 →
      generateFileName (joinPath root kc.1) 1 ≠
        generateFileName (joinPath root kc2.1) 1) :
    ∃ fs1 fs2,
      materialize true root b1 none ⟨[], L⟩ = .ok fs1 ∧
      materialize true root b2 none fs1 = .ok fs2 ∧
      lk fs2.files (joinPath root p) = some c1 ∧
      lk fs2.files (generateFileName (joinPath root p) 1) = some c2 ∧
      (∀ x v, lk fs1.files x = some v → lk fs2.files x = some v) := by
  have hrun1 : materialize true root b1 none ⟨[], L⟩ =
      .ok ⟨b1.map (fun kc => (joinPath root kc.1, kc.2)), L⟩ := by
    rw [materialize_merge_eq, bundleFiles_none]
    exact writeAll_from_empty root b1 h1 L
  have hG : ∀ kc ∈ b2,
      lk (b1.map fun kc => (joinPath root kc.1, kc.2))
        (generateFileName (joinPath root kc.1) 1) = none := by
    intro kc hkc
    apply lk_eq_none
    intro kv hkv
    simp only [List.mem_map] at hkv
    obtain ⟨kb, hkb, rfl⟩ := hkv
    exact hT kb (List.mem_append_left _ hkb) kc hkc
  have hT2 : ∀ kc ∈ b2, ∀ kc2 ∈ b2,
      joinPath root kc.1 ≠ generateFileName (joinPath root kc2.1) 1 :=
    fun kc hkc kc2 hkc2 => hT kc (List.mem_append_right _ hkc) kc2 hkc2
  have hrun2 : materialize true root b2 none
      ⟨b1.map (fun kc => (joinPath root kc.1, kc.2)), L⟩ =
      .ok ⟨(b1.map fun kc => (joinPath root kc.1, kc.2)) ++
        b2.filterMap (conF root (b1.map fun kc =>
          (joinPath root kc.1, kc.2))), L⟩ := by
    rw [materialize_merge_eq, bundleFiles_none]
    exact writeAll_conflict root b2
      ⟨b1.map (fun kc => (joinPath root kc.1, kc.2)), L⟩ h2 hG hT2 hI
  have hlkp : lk (b1.map fun kc => (joinPath root kc.1, kc.2))
      (joinPath root p) = some c1 := lk_map_mem root h1 hm1
  refine ⟨_, _, hrun1, hrun2, ?_, ?_, ?_⟩
  · exact lk_append_some _ hlkp
  · rw [lk_append_none _ (hG (p, c2) hm2)]
    exact lk_filterMap_conflict root h2 hm2 hlkp hne
      (fun kc hkc => hT2 kc hkc (p, c2) hm2)
      (fun kc hkc hkne => hI kc hkc (p, c2) hm2 hkne)
  · intro x v hx
    exact lk_append_some _ hx

theorem c9_conflict_safety_witness :
    ∃ fs1 fs2,
      materialize true "out" [("a.sol", "c1")] none ⟨[], []⟩ = .ok fs1 ∧
      materialize true "out" [("a.sol", "c2")] none fs1 = .ok fs2 ∧
      lk fs2.files (joinPath "out" "a.sol") = some "c1" ∧
      lk fs2.files (generateFileName (joinPath "out" "a.sol") 1) =
        some "c2" ∧
      (∀ x v, lk fs1.files x = some v → lk fs2.files x = some v) :=
  c9_conflict_safety "out" "a.sol" "c1" "c2" [("a.sol", "c1")]
    [("a.sol", "c2")] [] (by decide) (by decide) (by decide) (by decide)
    (by decide) (by decide) (by decide)

end CloneContract
